import Mathlib

/-!
Shallow embedding of the storage layer (`src/storage.ts`) and the WebSocket
community-chat broadcaster (`src/routes.ts`) of the findmybizname platform.

Modelling conventions:
* Monetary values (`decimal(…, scale 2)` columns, parsed with `parseFloat` and
  written back with `toFixed(2)`) are modelled as exact integer cents (`Int`).
* JavaScript `Date` values are modelled by `JsDate`, carrying both the
  millisecond clock reading (`Date.now()`) and the calendar fields
  (`getDate`/`getMonth`/`getFullYear`) that the code inspects.
* JavaScript `Map`s (insertion-ordered, `set` replacing in place) are modelled
  as association lists with `mapGet`/`mapSet`.
* Database tables are modelled as lists of rows in insertion order; `serial`
  primary keys are modelled by explicit next-id counters in the state.
* `async` storage methods that contain no `throw` are modelled as total
  functions; the two mutators relevant to error-behaviour claims are given an
  explicit `Except` result to record that they return normally.
-/

/-- A JavaScript `Date`: millisecond epoch value plus the calendar fields the
code reads (`getDate()`, `getMonth()`, `getFullYear()`). -/
structure JsDate where
  ms : Nat
  day : Nat
  month : Nat
  year : Nat
deriving DecidableEq, Repr

/-- Lower-case base-36 digit, as used by JavaScript `Number.toString(36)`. -/
def base36Char (d : Nat) : Char :=
  if d < 10 then Char.ofNat (48 + d) else Char.ofNat (97 + (d - 10))

/-- Fuel-driven accumulator loop for base-36 rendering. -/
def toBase36Aux : Nat → Nat → List Char → List Char
  | 0, _, acc => acc
  | fuel + 1, n, acc =>
      if n = 0 then acc else toBase36Aux fuel (n / 36) (base36Char (n % 36) :: acc)

/-- JavaScript `n.toString(36)` for a natural number. -/
def toBase36 (n : Nat) : String :=
  if n = 0 then ("0") else String.mk (toBase36Aux (n + 1) n [])

/-- JavaScript `String.prototype.toUpperCase()` (ASCII range, which covers
the generated codes). -/
def strToUpper (s : String) : String :=
  String.mk (s.data.map Char.toUpper)

/-- Model of `Map.get`: first entry with the given key, if any. -/
def mapGet {κ α : Type} [DecidableEq κ] (l : List (κ × α)) (k : κ) : Option α :=
  (l.find? (fun p => decide (p.1 = k))).map (fun p => p.2)

/-- Model of `Map.set`: replace the entry in place when the key is present, otherwise
append a new entry (JavaScript `Map` insertion-order semantics). -/
def mapSet {κ α : Type} [DecidableEq κ] (l : List (κ × α)) (k : κ) (v : α) :
    List (κ × α) :=
  if l.any (fun p => decide (p.1 = k)) then
    l.map (fun p => if p.1 = k then (k, v) else p)
  else
    l ++ [(k, v)]

/-- Model of `Map.delete` of the first entry with the given key (keys are unique in a
JavaScript `Map`, so at most one entry can match). -/
def mapDelete {κ α : Type} [DecidableEq κ] (l : List (κ × α)) (k : κ) :
    List (κ × α) :=
  l.eraseP (fun p => decide (p.1 = k))

/-! ## Entity records (from `src/schema.ts`) -/

/-- A row of the `users` table / a `MemStorage` user record. -/
structure User where
  id : Nat
  username : String
  email : String
  plan : String
  dailyUsage : Nat
  lastUsageReset : JsDate
  brandAnalysisUsage : Nat
  nameImprovementUsage : Nat
  stripeCustomerId : Option String
  stripeSubscriptionId : Option String
  createdAt : JsDate
deriving DecidableEq, Repr

/-- A row of the `referral_codes` table. -/
structure ReferralCode where
  id : Nat
  userId : Nat
  code : String
  isActive : Bool
  createdAt : JsDate
deriving DecidableEq, Repr

/-- A row of the `referrals` table.  `commissionAmount` is a
`decimal(10,2)` column modelled in integer cents. -/
structure Referral where
  id : Nat
  referrerId : Nat
  refereeId : Nat
  referralCode : String
  status : String
  conversionDate : Option JsDate
  commissionAmount : Option Int
  currency : String
  createdAt : JsDate
deriving DecidableEq, Repr

/-- A row of the `digital_product_purchases` table. -/
structure DigitalProductPurchase where
  id : Nat
  userId : Nat
  productId : Nat
  purchasePrice : Int
  paymentMethod : String
  paymentId : Option String
  downloadCount : Nat
  lastDownloadAt : Option JsDate
  createdAt : JsDate
deriving DecidableEq, Repr

/-- A row of the `digital_wallets` table; `balance` is a `decimal(15,2)`
column modelled in integer cents. -/
structure DigitalWallet where
  id : Nat
  userId : Nat
  walletAddress : String
  walletType : String
  balance : Int
  currency : String
  isActive : Bool
  lastTransactionAt : Option JsDate
  createdAt : JsDate
  updatedAt : JsDate
deriving DecidableEq, Repr

/-- A row of the `wallet_transactions` table (immutable ledger entry). -/
structure WalletTransaction where
  id : Nat
  walletId : Nat
  transactionType : String
  amount : Int
  currency : String
  description : Option String
  sourceType : Option String
  sourceId : Option Nat
  status : String
  balanceAfter : Int
  createdAt : JsDate
deriving DecidableEq, Repr

/-- The caller-supplied part of a ledger insert:
`Omit<InsertWalletTransaction, 'walletId' | 'balanceAfter'>`.  Optional
columns carry their database defaults when absent (`currency` → `"USD"`,
`status` → `"completed"`). -/
structure WalletTxInput where
  transactionType : String
  amount : Int
  currency : Option String
  description : Option String
  sourceType : Option String
  sourceId : Option Nat
  status : Option String
deriving DecidableEq, Repr

/-- A row of the `wallet_withdrawals` table. -/
structure WalletWithdrawal where
  id : Nat
  walletId : Nat
  amount : Int
  currency : String
  withdrawalMethod : String
  status : String
  transactionFee : Int
  netAmount : Int
  createdAt : JsDate
deriving DecidableEq, Repr

/-- The caller-supplied part of a withdrawal insert:
`Omit<InsertWalletWithdrawal, 'walletId' | 'netAmount'>`. -/
structure WithdrawalInput where
  amount : Int
  currency : Option String
  withdrawalMethod : String
  status : Option String
  transactionFee : Option Int
deriving DecidableEq, Repr

/-- Referral-code generation shared by both backends:
`REF${userId}${Date.now().toString(36).toUpperCase()}`. -/
def referralCodeString (userId : Nat) (now : JsDate) : String :=
  "REF" ++ toString userId ++ strToUpper (toBase36 now.ms)

/-- Errors thrown by storage methods (`throw new Error(…)`). -/
inductive StorageError where
  | error (message : String)
deriving DecidableEq, Repr

/-- The row update performed by `updateReferralStatus` in both backends:
overwrite `status`; copy `conversionDate` and `commissionAmount` only when
the optional argument is truthy (`undefined` and `0` are falsy in
JavaScript, so a zero commission is skipped). -/
def referralStatusUpdate (status : String) (conversionDate : Option JsDate)
    (commissionAmount : Option Int) (referral : Referral) : Referral :=
  let r1 := { referral with status := status }
  let r2 :=
    match conversionDate with
    | some d => { r1 with conversionDate := some d }
    | none => r1
  match commissionAmount with
  | some c => if c ≠ 0 then { r2 with commissionAmount := some c } else r2
  | none => r2

/-! ## MemStorage (`src/storage.ts`, class `MemStorage`)

Each `Map<number, T>` field is an association list; `currentXId` counters are
carried explicitly. -/

/-- The mutable state of a `MemStorage` instance (restricted to the maps the
verified operations touch). -/
structure MemState where
  users : List (Nat × User)
  digitalProductPurchases : List (Nat × DigitalProductPurchase)
  referralCodes : List (Nat × ReferralCode)
  referrals : List (Nat × Referral)
  currentUserId : Nat
  currentPurchaseId : Nat
  currentReferralCodeId : Nat
  currentReferralId : Nat
deriving DecidableEq, Repr

namespace MemStorage

/-- Embeds `MemStorage.getUser`: `this.users.get(id)`. -/
def getUser (s : MemState) (id : Nat) : Option User :=
  mapGet s.users id

/-- Embeds `MemStorage.updateUserUsage`: when the user exists, reset `dailyUsage` to
0 and refresh `lastUsageReset` if `now` is a different calendar day than the
stored reset, then overwrite `dailyUsage` with the argument.  The method body
contains no `throw`; a missing user leaves the state untouched. -/
def updateUserUsage (s : MemState) (userId : Nat) (usage : Nat) (now : JsDate) :
    Except StorageError MemState :=
  match mapGet s.users userId with
  | none => Except.ok s
  | some user =>
      let lastReset := user.lastUsageReset
      let user1 :=
        if now.day ≠ lastReset.day ∨ now.month ≠ lastReset.month ∨
            now.year ≠ lastReset.year then
          { user with dailyUsage := 0, lastUsageReset := now }
        else user
      let user2 := { user1 with dailyUsage := usage }
      Except.ok { s with users := mapSet s.users userId user2 }

/-- Embeds `MemStorage.incrementDownloadCount`: when the purchase exists, bump
`downloadCount` and stamp `lastDownloadAt`.  No `throw`; a missing purchase
leaves the state untouched. -/
def incrementDownloadCount (s : MemState) (purchaseId : Nat) (now : JsDate) :
    Except StorageError MemState :=
  match mapGet s.digitalProductPurchases purchaseId with
  | none => Except.ok s
  | some purchase =>
      let purchase1 :=
        { purchase with
          downloadCount := purchase.downloadCount + 1
          lastDownloadAt := some now }
      Except.ok
        { s with
          digitalProductPurchases :=
            mapSet s.digitalProductPurchases purchaseId purchase1 }

/-- Embeds `MemStorage.getPurchase`: find by `(userId, productId)`. -/
def getPurchase (s : MemState) (userId productId : Nat) :
    Option DigitalProductPurchase :=
  ((s.digitalProductPurchases.map (fun p => p.2)).find?
    (fun p => decide (p.userId = userId ∧ p.productId = productId)))

/-- Embeds `MemStorage.createReferralCode`: unconditionally mints a fresh code from
the current clock and stores it under a fresh id. -/
def createReferralCode (s : MemState) (userId : Nat) (now : JsDate) :
    MemState × ReferralCode :=
  let code := referralCodeString userId now
  let referralCode : ReferralCode :=
    { id := s.currentReferralCodeId
      userId := userId
      code := code
      isActive := true
      createdAt := now }
  ({ s with
      referralCodes := mapSet s.referralCodes referralCode.id referralCode
      currentReferralCodeId := s.currentReferralCodeId + 1 },
   referralCode)

/-- Embeds `MemStorage.updateReferralStatus`: overwrite `status`; copy
`conversionDate` and `commissionAmount` only when the optional argument is
truthy (`0` is falsy in JavaScript). -/
def updateReferralStatus (s : MemState) (referralId : Nat) (status : String)
    (conversionDate : Option JsDate) (commissionAmount : Option Int) :
    MemState :=
  match mapGet s.referrals referralId with
  | none => s
  | some referral =>
      { s with
        referrals := mapSet s.referrals referralId
          (referralStatusUpdate status conversionDate commissionAmount
            referral) }

end MemStorage

/-! ## DatabaseStorage (`src/storage.ts`, class `DatabaseStorage`)

Tables are lists of rows in insertion order; `serial` primary keys are drawn
from explicit next-id counters.  A drizzle `select … where eq(col, v)`
destructured as `const [row] = …` is modelled by `List.find?`; an
`update … where eq(col, v)` is modelled by mapping the update over every
matching row. -/

/-- The visible database state (restricted to the tables the verified
operations touch). -/
structure DbState where
  users : List User
  digitalProductPurchases : List DigitalProductPurchase
  referralCodes : List ReferralCode
  referrals : List Referral
  wallets : List DigitalWallet
  walletTransactions : List WalletTransaction
  walletWithdrawals : List WalletWithdrawal
  nextUserId : Nat
  nextReferralCodeId : Nat
  nextWalletId : Nat
  nextWalletTransactionId : Nat
  nextWithdrawalId : Nat
deriving DecidableEq, Repr

namespace DatabaseStorage

/-- Embeds `DatabaseStorage.getUser`: `select … where eq(users.id, id)`. -/
def getUser (s : DbState) (id : Nat) : Option User :=
  s.users.find? (fun u => decide (u.id = id))

/-- Embeds `DatabaseStorage.updateUserUsage`: `update users set dailyUsage = usage
where id = userId`.  No calendar check, and `lastUsageReset` is not touched. -/
def updateUserUsage (s : DbState) (userId : Nat) (usage : Nat) : DbState :=
  { s with
    users := s.users.map
      (fun u => if u.id = userId then { u with dailyUsage := usage } else u) }

/-- Embeds `DatabaseStorage.incrementDownloadCount`: SQL `downloadCount + 1` on the
matching purchase row (no `lastDownloadAt` update, no error on a missing
row). -/
def incrementDownloadCount (s : DbState) (purchaseId : Nat) :
    Except StorageError DbState :=
  Except.ok
    { s with
      digitalProductPurchases := s.digitalProductPurchases.map
        (fun p =>
          if p.id = purchaseId then
            { p with downloadCount := p.downloadCount + 1 }
          else p) }

/-- Embeds `DatabaseStorage.getPurchase`: `select … where userId = … and
productId = …`. -/
def getPurchase (s : DbState) (userId productId : Nat) :
    Option DigitalProductPurchase :=
  s.digitalProductPurchases.find?
    (fun p => decide (p.userId = userId ∧ p.productId = productId))

/-- Embeds `DatabaseStorage.createReferralCode`: return the existing row for the
user when present, otherwise insert a freshly generated code. -/
def createReferralCode (s : DbState) (userId : Nat) (now : JsDate) :
    DbState × ReferralCode :=
  match s.referralCodes.find? (fun rc => decide (rc.userId = userId)) with
  | some existing => (s, existing)
  | none =>
      let code := referralCodeString userId now
      let referralCode : ReferralCode :=
        { id := s.nextReferralCodeId
          userId := userId
          code := code
          isActive := true
          createdAt := now }
      ({ s with
          referralCodes := s.referralCodes ++ [referralCode]
          nextReferralCodeId := s.nextReferralCodeId + 1 },
       referralCode)

/-- Embeds `DatabaseStorage.updateReferralStatus`: build an `updates` object holding
`status`, plus `conversionDate`/`commissionAmount` only when the optional
argument is truthy (`0` is falsy), and apply it to the matching row. -/
def updateReferralStatus (s : DbState) (referralId : Nat) (status : String)
    (conversionDate : Option JsDate) (commissionAmount : Option Int) :
    DbState :=
  { s with
    referrals := s.referrals.map
      (fun r =>
        if r.id = referralId then
          referralStatusUpdate status conversionDate commissionAmount r
        else r) }

/-- Embeds `DatabaseStorage.createWallet`: insert a wallet with balance `"0.00"` and
a generated address `FMBN${userId}${TYPE}${Date.now().toString(36)}`
(upper-cased). -/
def createWallet (s : DbState) (userId : Nat) (walletType : String)
    (now : JsDate) : DbState × DigitalWallet :=
  let walletAddress :=
    "FMBN" ++ toString userId ++ strToUpper walletType ++
      strToUpper (toBase36 now.ms)
  let wallet : DigitalWallet :=
    { id := s.nextWalletId
      userId := userId
      walletAddress := walletAddress
      walletType := walletType
      balance := 0
      currency := "USD"
      isActive := true
      lastTransactionAt := none
      createdAt := now
      updatedAt := now }
  ({ s with
      wallets := s.wallets ++ [wallet]
      nextWalletId := s.nextWalletId + 1 },
   wallet)

/-- Embeds `DatabaseStorage.getWalletBalance`: the stored balance, or `"0.00"` when
the wallet row is absent (`wallet?.balance || "0.00"`). -/
def getWalletBalance (s : DbState) (walletId : Nat) : Int :=
  match s.wallets.find? (fun w => decide (w.id = walletId)) with
  | some w => w.balance
  | none => 0

/-- Embeds `DatabaseStorage.addWalletTransaction`: read the current balance, add the
amount for a `'credit'` and subtract it otherwise (no floor at zero), insert
the ledger row with `balanceAfter = newBalance`, then write the new balance
(and timestamps) onto the wallet row. -/
def addWalletTransaction (s : DbState) (walletId : Nat) (tx : WalletTxInput)
    (now : JsDate) : DbState × WalletTransaction :=
  let currentBalance := getWalletBalance s walletId
  let newBalance : Int :=
    if tx.transactionType = "credit" then currentBalance + tx.amount
    else currentBalance - tx.amount
  let walletTransaction : WalletTransaction :=
    { id := s.nextWalletTransactionId
      walletId := walletId
      transactionType := tx.transactionType
      amount := tx.amount
      currency := tx.currency.getD ("USD")
      description := tx.description
      sourceType := tx.sourceType
      sourceId := tx.sourceId
      status := tx.status.getD ("completed")
      balanceAfter := newBalance
      createdAt := now }
  let s1 :=
    { s with
      walletTransactions := s.walletTransactions ++ [walletTransaction]
      nextWalletTransactionId := s.nextWalletTransactionId + 1
      wallets := s.wallets.map
        (fun w =>
          if w.id = walletId then
            { w with
              balance := newBalance
              lastTransactionAt := some now
              updatedAt := now }
          else w) }
  (s1, walletTransaction)

/-- Embeds `DatabaseStorage.updateWalletBalance`: direct balance mutation; credits
add, debits are clamped at zero (`Math.max(0, balance - amount)`).  Returns
the updated row when it exists. -/
def updateWalletBalance (s : DbState) (walletId : Nat) (amount : Int)
    (transactionType : String) (now : JsDate) :
    DbState × Option DigitalWallet :=
  let currentBalance := getWalletBalance s walletId
  let newBalance : Int :=
    if transactionType = "credit" then currentBalance + amount
    else max 0 (currentBalance - amount)
  let s1 :=
    { s with
      wallets := s.wallets.map
        (fun w =>
          if w.id = walletId then
            { w with
              balance := newBalance
              lastTransactionAt := some now
              updatedAt := now }
          else w) }
  (s1, s1.wallets.find? (fun w => decide (w.id = walletId)))

/-- Embeds `DatabaseStorage.createWithdrawal`: compute
`netAmount = amount - (transactionFee || "0")`, insert the withdrawal row,
then record a `'debit'` ledger entry for the full pre-fee amount with status
`'pending'`. -/
def createWithdrawal (s : DbState) (walletId : Nat) (w : WithdrawalInput)
    (now : JsDate) : DbState × WalletWithdrawal :=
  let transactionFee := w.transactionFee.getD 0
  let netAmount := w.amount - transactionFee
  let walletWithdrawal : WalletWithdrawal :=
    { id := s.nextWithdrawalId
      walletId := walletId
      amount := w.amount
      currency := w.currency.getD ("USD")
      withdrawalMethod := w.withdrawalMethod
      status := w.status.getD ("pending")
      transactionFee := transactionFee
      netAmount := netAmount
      createdAt := now }
  let s1 :=
    { s with
      walletWithdrawals := s.walletWithdrawals ++ [walletWithdrawal]
      nextWithdrawalId := s.nextWithdrawalId + 1 }
  let s2 :=
    (addWalletTransaction s1 walletId
      { transactionType := "debit"
        amount := w.amount
        currency := some (w.currency.getD ("USD"))
        description := some ("Withdrawal via " ++ w.withdrawalMethod)
        sourceType := some ("withdrawal")
        sourceId := some walletWithdrawal.id
        status := some ("pending") }
      now).1
  (s2, walletWithdrawal)

end DatabaseStorage

/-! ## Community chat broadcaster (`src/routes.ts`)

`connectedUsers` is a `Map<string, ConnectedUser>` keyed by username; sockets
are identified by opaque handles (`Nat`), with the transport's open/closed
view supplied as a predicate `isOpen`. -/

/-- A registry entry: `{id, username, userType, location, ws}`. -/
structure ConnectedUser where
  id : String
  username : String
  userType : String
  location : Option String
  ws : Nat
deriving DecidableEq, Repr

/-- The `connectedUsers` registry. -/
def ChatRegistry : Type := List (String × ConnectedUser)

/-- An outgoing chat frame as built by the `community_message` case (server
assigns `id` from `Date.now()` and `timestamp` from the clock). -/
structure ChatMessage where
  type : String
  id : String
  username : String
  message : String
  timestamp : Nat
  userType : String
deriving DecidableEq, Repr

namespace Chat

/-- The eviction loop inside `join_community`: walk the registry entries in
order; at the first entry whose `username` matches, close its socket, delete
it and `break`.  Returns the new registry together with the closed socket
handles. -/
def joinEvict : List (String × ConnectedUser) → String →
    List (String × ConnectedUser) × List Nat
  | [], _ => ([], [])
  | e :: rest, username =>
      if e.2.username = username then (rest, [e.2.ws])
      else
        let r := joinEvict rest username
        (e :: r.1, r.2)

/-- The `join_community` case: evict any prior connection for the username,
then register the new connection under the username
(`connectedUsers.set(userId || username, user)`). -/
def joinCommunity (reg : List (String × ConnectedUser)) (username : String)
    (userType : String) (location : Option String) (ws : Nat) :
    List (String × ConnectedUser) × List Nat :=
  let evicted := joinEvict reg username
  let user : ConnectedUser :=
    { id := username
      username := username
      userType := userType
      location := location
      ws := ws }
  (mapSet evicted.1 username user, evicted.2)

/-- Embeds `broadcast(message, excludeUserId?)`: send to every registry entry whose
key differs from the excluded id and whose socket is open, in registry
order.  Returns the socket handles written to. -/
def broadcastTargets (reg : List (String × ConnectedUser)) (isOpen : Nat → Bool)
    (excludeUserId : Option String) : List Nat :=
  (reg.filter
      (fun e =>
        (match excludeUserId with
         | some x => decide (e.1 ≠ x)
         | none => true) && isOpen e.2.ws)).map
    (fun e => e.2.ws)

/-- The `community_message` case: only when the sending connection has joined
(`userId` set and present in the registry) build the outgoing frame with a
server-assigned `id` and `timestamp` and broadcast it with **no** excluded
user.  Returns the (socket, frame) deliveries. -/
def handleCommunityMessage (reg : List (String × ConnectedUser))
    (isOpen : Nat → Bool) (userId : Option String) (text : String)
    (now : Nat) : List (Nat × ChatMessage) :=
  match userId with
  | none => []
  | some uid =>
      match mapGet reg uid with
      | none => []
      | some sender =>
          let chatMessage : ChatMessage :=
            { type := "community_message"
              id := toString now
              username := sender.username
              message := text
              timestamp := now
              userType := sender.userType }
          (broadcastTargets reg isOpen none).map (fun ws => (ws, chatMessage))

/-- Well-formedness of the registry, maintained by the event handlers: every
entry is keyed by its user's username, and keys are unique (a JavaScript
`Map` cannot hold duplicate keys). -/
def RegistryWF (reg : List (String × ConnectedUser)) : Prop :=
  (∀ e ∈ reg, e.1 = e.2.username) ∧ (reg.map (fun e => e.1)).Nodup

end Chat

/-! ## Derived notions used by the verified properties -/

/-- The signed contribution of a ledger entry to its wallet's balance:
credits count positively, anything else (the `else` branch of the source)
negatively. -/
def signedAmount (t : WalletTransaction) : Int :=
  if t.transactionType = "credit" then t.amount else -t.amount

/-- A wallet's ledger: every `wallet_transactions` row for the wallet, in
insertion order. -/
def walletLedger (s : DbState) (walletId : Nat) : List WalletTransaction :=
  s.walletTransactions.filter (fun t => decide (t.walletId = walletId))

/-- Predicate `ledgerConsistent b L` holds when, starting from balance `b`, each entry
of `L` records in `balanceAfter` the running sum of signed amounts at the
time it was recorded. -/
def ledgerConsistent : Int → List WalletTransaction → Bool
  | _, [] => true
  | b, t :: rest =>
      t.balanceAfter == b + signedAmount t &&
        ledgerConsistent (b + signedAmount t) rest

/-- Run a sequence of `addWalletTransaction` calls against one wallet. -/
def applyTxs (s : DbState) (walletId : Nat)
    (inputs : List (WalletTxInput × JsDate)) : DbState :=
  inputs.foldl
    (fun st p => (DatabaseStorage.addWalletTransaction st walletId p.1 p.2).1) s

/-- The wallet-subsystem invariant for one wallet id: the wallet row exists,
its ledger's `balanceAfter` entries are the running sums from zero, and the
stored balance is the total signed sum of the ledger. -/
def WalletInv (walletId : Nat) (s : DbState) : Prop :=
  ∃ w, s.wallets.find? (fun x => decide (x.id = walletId)) = some w ∧
    ledgerConsistent 0 (walletLedger s walletId) = true ∧
    w.balance = ((walletLedger s walletId).map signedAmount).sum

/-- Correspondence between `MemStorage`'s referral map and
`DatabaseStorage`'s referral table: same rows in the same order, keys equal
ids, and row ids unique. -/
def ReferralTablesAgree (memReferrals : List (Nat × Referral))
    (dbReferrals : List Referral) : Prop :=
  memReferrals.map (fun p => p.2) = dbReferrals ∧
  (∀ p ∈ memReferrals, p.1 = p.2.id) ∧
  (dbReferrals.map (fun r => r.id)).Nodup

/-- An empty `MemStorage` state (before `initializeData` seeds demo rows). -/
def memEmpty : MemState :=
  { users := []
    digitalProductPurchases := []
    referralCodes := []
    referrals := []
    currentUserId := 1
    currentPurchaseId := 1
    currentReferralCodeId := 1
    currentReferralId := 1 }

/-- An empty database state. -/
def dbEmpty : DbState :=
  { users := []
    digitalProductPurchases := []
    referralCodes := []
    referrals := []
    wallets := []
    walletTransactions := []
    walletWithdrawals := []
    nextUserId := 1
    nextReferralCodeId := 1
    nextWalletId := 1
    nextWalletTransactionId := 1
    nextWithdrawalId := 1 }

/-- A fixed clock reading used by concrete test runs. -/
def date0 : JsDate := { ms := 0, day := 9, month := 9, year := 2025 }

/-- A clock reading one millisecond after `date0`, same calendar day. -/
def date1 : JsDate := { ms := 1, day := 9, month := 9, year := 2025 }

/-- A clock reading on the following calendar day. -/
def date2 : JsDate := { ms := 86400000, day := 10, month := 9, year := 2025 }

/-- A minimal credit ledger input of the given amount. -/
def creditInput (amount : Int) : WalletTxInput :=
  { transactionType := "credit"
    amount := amount
    currency := none
    description := none
    sourceType := none
    sourceId := none
    status := none }

/-- A minimal debit ledger input of the given amount. -/
def debitInput (amount : Int) : WalletTxInput :=
  { transactionType := "debit"
    amount := amount
    currency := none
    description := none
    sourceType := none
    sourceId := none
    status := none }

/-- A concrete wallet row with balance 1.00 used by witness runs. -/
def walletA : DigitalWallet :=
  { id := 1
    userId := 1
    walletAddress := "FMBN1PERSONAL0"
    walletType := "personal"
    balance := 100
    currency := "USD"
    isActive := true
    lastTransactionAt := none
    createdAt := date0
    updatedAt := date0 }

/-- A database state holding exactly the wallet `walletA`. -/
def sWallet : DbState :=
  { dbEmpty with wallets := [walletA], nextWalletId := 2 }

/-- A concrete user whose `lastUsageReset` is the calendar day of `date0`. -/
def userA : User :=
  { id := 1
    username := "demo_user"
    email := "demo@example.com"
    plan := "free"
    dailyUsage := 3
    lastUsageReset := date0
    brandAnalysisUsage := 0
    nameImprovementUsage := 0
    stripeCustomerId := none
    stripeSubscriptionId := none
    createdAt := date0 }

/-- A `MemStorage` state holding exactly the user `userA`. -/
def sUserMem : MemState :=
  { memEmpty with users := [(1, userA)], currentUserId := 2 }

/-- A database state holding exactly the user `userA`. -/
def sUserDb : DbState :=
  { dbEmpty with users := [userA], nextUserId := 2 }

/-- A concrete pending referral row. -/
def refA : Referral :=
  { id := 1
    referrerId := 1
    refereeId := 2
    referralCode := "REF10"
    status := "pending"
    conversionDate := none
    commissionAmount := none
    currency := "USD"
    createdAt := date0 }

/-- A `MemStorage` state holding exactly the referral `refA`. -/
def sRefMem : MemState :=
  { memEmpty with referrals := [(1, refA)], currentReferralId := 2 }

/-- A database state holding exactly the referral `refA`. -/
def sRefDb : DbState :=
  { dbEmpty with referrals := [refA] }

/-- A connected chat participant named Alice on socket 1. -/
def connAlice : ConnectedUser :=
  { id := "Alice"
    username := "Alice"
    userType := "entrepreneur"
    location := none
    ws := 1 }

/-- A connected chat participant named Bob on socket 2. -/
def connBob : ConnectedUser :=
  { id := "Bob"
    username := "Bob"
    userType := "supporter"
    location := none
    ws := 2 }

/-- A registry holding Alice and Bob. -/
def regAliceBob : List (String × ConnectedUser) :=
  [("Alice", connAlice), ("Bob", connBob)]

/-! ## Helper lemmas -/

/-- Replacing every entry keyed `k` and then searching for key `k` finds the
replacement, provided some entry with key `k` exists. -/
theorem find?_map_setEntry {κ α : Type} [DecidableEq κ]
    (l : List (κ × α)) (k : κ) (v : α)
    (ha : l.any (fun p => decide (p.1 = k)) = true) :
    (l.map (fun p => if p.1 = k then (k, v) else p)).find?
        (fun p => decide (p.1 = k)) = some (k, v) := by
  induction l with
  | nil => simp at ha
  | cons p l ih =>
      by_cases hp : p.1 = k
      · rw [List.map_cons, if_pos hp, List.find?_cons_of_pos _ (by simp)]
      · have ha' : l.any (fun p => decide (p.1 = k)) = true := by
          rcases List.any_eq_true.mp ha with ⟨q, hq, hqk⟩
          rcases List.mem_cons.mp hq with rfl | hql
          · exact absurd (of_decide_eq_true hqk) hp
          · exact List.any_eq_true.mpr ⟨q, hql, hqk⟩
        rw [List.map_cons, if_neg hp,
          List.find?_cons_of_neg _ (by simpa using hp)]
        exact ih ha'

/-- Replacing every entry keyed `k` does not affect a search for a different
key `k'`. -/
theorem find?_map_setEntry_ne {κ α : Type} [DecidableEq κ]
    (l : List (κ × α)) (k k' : κ) (v : α) (h : k' ≠ k) :
    (l.map (fun p => if p.1 = k then (k, v) else p)).find?
        (fun p => decide (p.1 = k')) = l.find? (fun p => decide (p.1 = k')) := by
  induction l with
  | nil => simp
  | cons p l ih =>
      by_cases hp : p.1 = k
      · rw [List.map_cons, if_pos hp,
          List.find?_cons_of_neg _ (by simpa using h.symm),
          List.find?_cons_of_neg _ (by simp [hp]; exact fun e => (h e.symm).elim)]
        exact ih
      · by_cases hp' : p.1 = k'
        · rw [List.map_cons, if_neg hp,
            List.find?_cons_of_pos _ (by simpa using hp'),
            List.find?_cons_of_pos _ (by simpa using hp')]
        · rw [List.map_cons, if_neg hp,
            List.find?_cons_of_neg _ (by simpa using hp'),
            List.find?_cons_of_neg _ (by simpa using hp')]
          exact ih

/-- Lemma: `mapGet` after `mapSet` at the same key yields the new value. -/
theorem mapGet_mapSet_self {κ α : Type} [DecidableEq κ]
    (l : List (κ × α)) (k : κ) (v : α) :
    mapGet (mapSet l k v) k = some v := by
  unfold mapGet mapSet
  by_cases h : l.any (fun p => decide (p.1 = k)) = true
  · rw [if_pos h, find?_map_setEntry l k v h]
    rfl
  · rw [if_neg h, List.find?_append]
    have hnone : l.find? (fun p => decide (p.1 = k)) = none := by
      rw [List.find?_eq_none]
      intro x hx hxk
      exact h (List.any_eq_true.mpr ⟨x, hx, hxk⟩)
    simp [hnone]

/-- Lemma: `mapGet` after `mapSet` at a different key is unchanged. -/
theorem mapGet_mapSet_ne {κ α : Type} [DecidableEq κ]
    (l : List (κ × α)) (k k' : κ) (v : α) (h : k' ≠ k) :
    mapGet (mapSet l k v) k' = mapGet l k' := by
  unfold mapGet mapSet
  by_cases ha : l.any (fun p => decide (p.1 = k)) = true
  · rw [if_pos ha, find?_map_setEntry_ne l k k' v h]
  · rw [if_neg ha, List.find?_append]
    have : List.find? (fun p => decide (p.1 = k')) [(k, v)] = none := by
      simp [List.find?, h.symm]
    simp [this]

/-- Lemma: `find?` commutes with an update applied exactly to the matching
elements, provided the update preserves the predicate. -/
theorem find?_map_ite {α : Type} (l : List α) (q : α → Prop) [DecidablePred q]
    (f : α → α) (hqf : ∀ a, q a → q (f a)) :
    (l.map (fun a => if q a then f a else a)).find? (fun a => decide (q a)) =
      (l.find? (fun a => decide (q a))).map f := by
  induction l with
  | nil => simp
  | cons a l ih =>
      by_cases h : q a
      · simp only [List.map_cons, if_pos h, List.find?_cons,
          decide_eq_true (hqf a h), decide_eq_true h, cond_true]
        rfl
      · simp only [List.map_cons, if_neg h, List.find?_cons,
          decide_eq_false h, cond_false]
        exact ih

/-- Lemma: `referralStatusUpdate` never changes the row id. -/
theorem referralStatusUpdate_id (status : String) (cd : Option JsDate)
    (ca : Option Int) (x : Referral) :
    (referralStatusUpdate status cd ca x).id = x.id := by
  unfold referralStatusUpdate
  cases cd <;> cases ca <;> simp only [] <;> first
    | rfl
    | (split <;> rfl)

/-- Field-level effect of `referralStatusUpdate`: `status` is overwritten;
`conversionDate` is copied only when supplied; `commissionAmount` is copied
only when supplied and non-zero; every other field is untouched. -/
theorem referralStatusUpdate_fields (status : String) (cd : Option JsDate)
    (ca : Option Int) (x : Referral) :
    (referralStatusUpdate status cd ca x).status = status ∧
    (referralStatusUpdate status cd ca x).conversionDate =
      (match cd with
       | some d => some d
       | none => x.conversionDate) ∧
    (referralStatusUpdate status cd ca x).commissionAmount =
      (match ca with
       | some c => if c ≠ 0 then some c else x.commissionAmount
       | none => x.commissionAmount) ∧
    (referralStatusUpdate status cd ca x).id = x.id ∧
    (referralStatusUpdate status cd ca x).referrerId = x.referrerId ∧
    (referralStatusUpdate status cd ca x).refereeId = x.refereeId ∧
    (referralStatusUpdate status cd ca x).referralCode = x.referralCode ∧
    (referralStatusUpdate status cd ca x).currency = x.currency ∧
    (referralStatusUpdate status cd ca x).createdAt = x.createdAt := by
  unfold referralStatusUpdate
  cases cd <;> cases ca <;> (try split) <;> simp_all
  all_goals (split <;> simp_all)

/-- When the map holds an entry with key `k`, `mapSet`'s effect on the value
column equals replacing every value whose id is `k`, provided keys equal
ids. -/
theorem mapSet_values {α : Type} (idf : α → Nat) (l : List (Nat × α))
    (k : Nat) (v : α)
    (hkeys : ∀ p ∈ l, p.1 = idf p.2)
    (hany : l.any (fun p => decide (p.1 = k)) = true) :
    (mapSet l k v).map (fun p => p.2) =
      (l.map (fun p => p.2)).map (fun x => if idf x = k then v else x) := by
  unfold mapSet
  rw [if_pos hany, List.map_map, List.map_map]
  apply List.map_congr_left
  intro p hp
  have hk := hkeys p hp
  by_cases h : p.1 = k
  · simp only [Function.comp_apply, if_pos h, if_pos (hk ▸ h)]
  · simp only [Function.comp_apply, if_neg h,
      if_neg (fun hh => h (hk.symm ▸ hh))]

/-- Lemma: `mapSet` with a value whose id is the key keeps the keys-equal-ids
discipline. -/
theorem mapSet_keys {α : Type} (idf : α → Nat) (l : List (Nat × α))
    (k : Nat) (v : α)
    (hkeys : ∀ p ∈ l, p.1 = idf p.2) (hvk : idf v = k) :
    ∀ p ∈ mapSet l k v, p.1 = idf p.2 := by
  unfold mapSet
  by_cases hany : l.any (fun p => decide (p.1 = k)) = true
  · rw [if_pos hany]
    intro p hp
    obtain ⟨q, hq, rfl⟩ := List.mem_map.mp hp
    by_cases h : q.1 = k
    · simp [h, hvk.symm]
    · simpa [h] using hkeys q hq
  · rw [if_neg hany]
    intro p hp
    rcases List.mem_append.mp hp with hl | hr
    · exact hkeys p hl
    · rcases List.mem_singleton.mp hr with rfl
      exact hvk.symm

/-- Appending one entry to a consistent ledger stays consistent exactly when
the new entry records the updated running sum. -/
theorem ledgerConsistent_append (b : Int) (L : List WalletTransaction)
    (t : WalletTransaction) :
    ledgerConsistent b (L ++ [t]) =
      (ledgerConsistent b L &&
        (t.balanceAfter == b + (L.map signedAmount).sum + signedAmount t)) := by
  induction L generalizing b with
  | nil => simp [ledgerConsistent]
  | cons h L ih =>
      simp only [List.cons_append, ledgerConsistent, List.append_eq, ih,
        List.map_cons, List.sum_cons, Bool.and_assoc]
      have hsum :
          b + signedAmount h + (List.map signedAmount L).sum + signedAmount t =
            b + (signedAmount h + (List.map signedAmount L).sum) +
              signedAmount t := by ring
      rw [hsum]

/-- Specialisation of `find?_map_ite` to the wallet-row balance update
performed by `addWalletTransaction` and `updateWalletBalance`. -/
theorem find?_wallets_update (l : List DigitalWallet) (walletId : Nat)
    (nb : Int) (now : JsDate) :
    (l.map (fun w =>
        if w.id = walletId then
          { w with
            balance := nb
            lastTransactionAt := some now
            updatedAt := now }
        else w)).find? (fun x => decide (x.id = walletId)) =
      (l.find? (fun x => decide (x.id = walletId))).map
        (fun w =>
          { w with
            balance := nb
            lastTransactionAt := some now
            updatedAt := now }) :=
  find?_map_ite l (fun x => x.id = walletId)
    (fun w =>
      { w with
        balance := nb
        lastTransactionAt := some now
        updatedAt := now })
    (fun _ ha => ha)

/-- One `addWalletTransaction` call on the wallet preserves the wallet
invariant (sequential ledger entries keep `balanceAfter` equal to the running
sum and the stored balance equal to the total). -/
theorem walletInv_step (walletId : Nat) (s : DbState) (tx : WalletTxInput)
    (now : JsDate) (h : WalletInv walletId s) :
    WalletInv walletId
      (DatabaseStorage.addWalletTransaction s walletId tx now).1 := by
  obtain ⟨w, hfind, hcons, hbal⟩ := h
  have hbalget : DatabaseStorage.getWalletBalance s walletId = w.balance := by
    unfold DatabaseStorage.getWalletBalance
    rw [hfind]
  unfold DatabaseStorage.addWalletTransaction
  simp only [hbalget]
  refine ⟨{ w with
      balance := if tx.transactionType = "credit" then w.balance + tx.amount
        else w.balance - tx.amount
      lastTransactionAt := some now
      updatedAt := now }, ?_, ?_, ?_⟩
  · rw [find?_wallets_update, hfind]
    rfl
  · simp only [walletLedger] at hcons hbal ⊢
    simp only [List.filter_append, List.filter_singleton]
    by_cases hc : tx.transactionType = "credit" <;>
      simp [hc, ledgerConsistent_append, hcons, signedAmount, ← hbal] <;>
      omega
  · simp only [walletLedger] at hbal ⊢
    simp only [List.filter_append, List.filter_singleton]
    by_cases hc : tx.transactionType = "credit" <;>
      simp [hc, signedAmount, ← hbal] <;> omega

/-- The wallet invariant is preserved by any sequence of sequential
`addWalletTransaction` calls. -/
theorem applyTxs_inv (walletId : Nat) (inputs : List (WalletTxInput × JsDate))
    (s : DbState) (h : WalletInv walletId s) :
    WalletInv walletId (applyTxs s walletId inputs) := by
  induction inputs generalizing s with
  | nil => exact h
  | cons p rest ih => exact ih _ (walletInv_step walletId s p.1 p.2 h)

/-- A wallet freshly minted by `createWallet` (under a previously unused id)
satisfies the invariant: empty ledger, balance `"0.00"`. -/
theorem createWallet_inv (s0 : DbState) (userId : Nat) (walletType : String)
    (now : JsDate)
    (hW : ∀ w ∈ s0.wallets, w.id ≠ s0.nextWalletId)
    (hT : ∀ t ∈ s0.walletTransactions, t.walletId ≠ s0.nextWalletId) :
    WalletInv (DatabaseStorage.createWallet s0 userId walletType now).2.id
      (DatabaseStorage.createWallet s0 userId walletType now).1 := by
  have hid : (DatabaseStorage.createWallet s0 userId walletType now).2.id
      = s0.nextWalletId := rfl
  have hbal0 :
      (DatabaseStorage.createWallet s0 userId walletType now).2.balance = 0 :=
    rfl
  have hwallets :
      (DatabaseStorage.createWallet s0 userId walletType now).1.wallets =
        s0.wallets ++
          [(DatabaseStorage.createWallet s0 userId walletType now).2] := rfl
  have htxs :
      (DatabaseStorage.createWallet s0 userId walletType
        now).1.walletTransactions = s0.walletTransactions := rfl
  have hledger :
      walletLedger (DatabaseStorage.createWallet s0 userId walletType now).1
        (DatabaseStorage.createWallet s0 userId walletType now).2.id = [] := by
    simp only [walletLedger, htxs, hid]
    rw [List.filter_eq_nil_iff]
    intro t ht
    simpa using hT t ht
  refine ⟨(DatabaseStorage.createWallet s0 userId walletType now).2,
    ?_, ?_, ?_⟩
  · rw [hwallets, hid, List.find?_append]
    have hnone : s0.wallets.find?
        (fun x => decide (x.id = s0.nextWalletId)) = none := by
      rw [List.find?_eq_none]
      intro x hx hxk
      exact hW x hx (of_decide_eq_true hxk)
    simp [hnone, List.find?, hid]
  · simp [hledger, ledgerConsistent]
  · simp [hledger, hbal0]

/-- Behaviour of the `join_community` eviction loop on a well-formed
registry containing the username: it closes exactly the prior connection's
socket, keeps every other entry (in order), and leaves no entry for the
username. -/
theorem joinEvict_spec (reg : List (String × ConnectedUser)) (u : String)
    (old : ConnectedUser)
    (hkeys : ∀ e ∈ reg, e.1 = e.2.username)
    (hnodup : (reg.map (fun e => e.1)).Nodup)
    (hold : mapGet reg u = some old) :
    (Chat.joinEvict reg u).2 = [old.ws] ∧
    (∀ e ∈ (Chat.joinEvict reg u).1, e.1 = e.2.username) ∧
    ((Chat.joinEvict reg u).1.map (fun e => e.1)).Nodup ∧
    (∀ e ∈ (Chat.joinEvict reg u).1, e.2.username ≠ u) ∧
    (∀ e ∈ (Chat.joinEvict reg u).1, e ∈ reg) := by
  induction reg with
  | nil => simp [mapGet] at hold
  | cons e rest ih =>
      have hek : e.1 = e.2.username := hkeys e (List.mem_cons_self e rest)
      by_cases he : e.2.username = u
      · have hjoin : Chat.joinEvict (e :: rest) u = (rest, [e.2.ws]) := by
          simp [Chat.joinEvict, he]
        have holde : old = e.2 := by
          unfold mapGet at hold
          rw [List.find?_cons_of_pos _ (by simp [hek, he])] at hold
          simpa using hold.symm
        have hkeyu : e.1 = u := hek.trans he
        have hrestkeys : ∀ x ∈ rest, x.1 = x.2.username := fun x hx =>
          hkeys x (List.mem_cons_of_mem e hx)
        have hrestnodup : (rest.map (fun x => x.1)).Nodup :=
          (List.nodup_cons.mp hnodup).2
        have hnotmem : e.1 ∉ rest.map (fun x => x.1) :=
          (List.nodup_cons.mp hnodup).1
        refine ⟨by rw [hjoin, holde], ?_, ?_, ?_, ?_⟩
        · rw [hjoin]
          exact hrestkeys
        · rw [hjoin]
          exact hrestnodup
        · rw [hjoin]
          intro x hx hxu
          exact hnotmem (List.mem_map.mpr
            ⟨x, hx, ((hrestkeys x hx).trans hxu).trans hkeyu.symm ▸ rfl⟩)
        · rw [hjoin]
          exact fun x hx => List.mem_cons_of_mem e hx
      · have hjoin : Chat.joinEvict (e :: rest) u =
            (e :: (Chat.joinEvict rest u).1, (Chat.joinEvict rest u).2) := by
          simp [Chat.joinEvict, he]
        have heku : ¬ e.1 = u := fun h => he ((hek.symm.trans h) ▸ rfl)
        have holdrest : mapGet rest u = some old := by
          unfold mapGet at hold ⊢
          rwa [List.find?_cons_of_neg _ (by simpa using heku)] at hold
        have hrestkeys : ∀ x ∈ rest, x.1 = x.2.username := fun x hx =>
          hkeys x (List.mem_cons_of_mem e hx)
        have hrestnodup : (rest.map (fun x => x.1)).Nodup :=
          (List.nodup_cons.mp hnodup).2
        have hnotmem : e.1 ∉ rest.map (fun x => x.1) :=
          (List.nodup_cons.mp hnodup).1
        obtain ⟨ihclosed, ihkeys, ihnodup, ihno, ihmem⟩ :=
          ih hrestkeys hrestnodup holdrest
        refine ⟨by rw [hjoin]; exact ihclosed, ?_, ?_, ?_, ?_⟩
        · rw [hjoin]
          intro x hx
          rcases List.mem_cons.mp hx with rfl | hx'
          · exact hek
          · exact ihkeys x hx'
        · rw [hjoin]
          rw [List.map_cons, List.nodup_cons]
          refine ⟨fun hmem => ?_, ihnodup⟩
          obtain ⟨x, hx, hxe⟩ := List.mem_map.mp hmem
          exact hnotmem (List.mem_map.mpr ⟨x, ihmem x hx, hxe⟩)
        · rw [hjoin]
          intro x hx hxu
          rcases List.mem_cons.mp hx with rfl | hx'
          · exact he hxu
          · exact ihno x hx' hxu
        · rw [hjoin]
          intro x hx
          rcases List.mem_cons.mp hx with rfl | hx'
          · exact List.mem_cons_self x rest
          · exact List.mem_cons_of_mem e (ihmem x hx')

/-- If no registry entry carries the username, the eviction loop is the
identity and closes nothing. -/
theorem joinEvict_not_found (reg : List (String × ConnectedUser)) (u : String)
    (h : ∀ e ∈ reg, e.2.username ≠ u) :
    Chat.joinEvict reg u = (reg, []) := by
  induction reg with
  | nil => rfl
  | cons e rest ih =>
      unfold Chat.joinEvict
      rw [if_neg (h e (List.mem_cons_self e rest))]
      have := ih (fun x hx => h x (List.mem_cons_of_mem e hx))
      rw [this]

/-! ## Claim theorems -/

/-- C1: for every wallet created by `createWallet` (balance `"0.00"`) under a
fresh id and every sequential sequence of `addWalletTransaction` calls on it,
the stored balance equals the sum of the signed amounts of all the wallet's
ledger transactions (credits positive, debits negative), and each
transaction's `balanceAfter` equals the running sum at the time it was
recorded. -/
theorem c1_wallet_balance_invariant (s0 : DbState) (userId : Nat)
    (walletType : String) (now : JsDate)
    (inputs : List (WalletTxInput × JsDate))
    (hW : ∀ w ∈ s0.wallets, w.id ≠ s0.nextWalletId)
    (hT : ∀ t ∈ s0.walletTransactions, t.walletId ≠ s0.nextWalletId) :
    ∃ w,
      (applyTxs (DatabaseStorage.createWallet s0 userId walletType now).1
          (DatabaseStorage.createWallet s0 userId walletType now).2.id
          inputs).wallets.find?
        (fun x =>
          decide (x.id =
            (DatabaseStorage.createWallet s0 userId walletType now).2.id)) =
        some w ∧
      ledgerConsistent 0
        (walletLedger
          (applyTxs (DatabaseStorage.createWallet s0 userId walletType now).1
            (DatabaseStorage.createWallet s0 userId walletType now).2.id
            inputs)
          (DatabaseStorage.createWallet s0 userId walletType now).2.id) =
        true ∧
      w.balance =
        ((walletLedger
            (applyTxs
              (DatabaseStorage.createWallet s0 userId walletType now).1
              (DatabaseStorage.createWallet s0 userId walletType now).2.id
              inputs)
            (DatabaseStorage.createWallet s0 userId walletType now).2.id).map
          signedAmount).sum :=
  applyTxs_inv _ inputs _ (createWallet_inv s0 userId walletType now hW hT)

/-- C1 witness: a concrete run — fresh wallet, credit 5.00, debit 2.00 —
reaching balance 3.00 with running sums 5.00 then 3.00. -/
theorem c1_wallet_balance_invariant_witness :
    (∀ w ∈ dbEmpty.wallets, w.id ≠ dbEmpty.nextWalletId) ∧
    (∀ t ∈ dbEmpty.walletTransactions, t.walletId ≠ dbEmpty.nextWalletId) ∧
    ∃ w,
      (applyTxs (DatabaseStorage.createWallet dbEmpty 1 ("personal") date0).1
          (DatabaseStorage.createWallet dbEmpty 1 ("personal") date0).2.id
          [(creditInput 500, date0), (debitInput 200, date1)]).wallets.find?
        (fun x =>
          decide (x.id =
            (DatabaseStorage.createWallet dbEmpty 1 ("personal")
              date0).2.id)) = some w ∧
      ledgerConsistent 0
        (walletLedger
          (applyTxs (DatabaseStorage.createWallet dbEmpty 1 ("personal")
              date0).1
            (DatabaseStorage.createWallet dbEmpty 1 ("personal") date0).2.id
            [(creditInput 500, date0), (debitInput 200, date1)])
          (DatabaseStorage.createWallet dbEmpty 1 ("personal") date0).2.id) =
        true ∧
      w.balance =
        ((walletLedger
            (applyTxs (DatabaseStorage.createWallet dbEmpty 1 ("personal")
                date0).1
              (DatabaseStorage.createWallet dbEmpty 1 ("personal") date0).2.id
              [(creditInput 500, date0), (debitInput 200, date1)])
            (DatabaseStorage.createWallet dbEmpty 1 ("personal")
              date0).2.id).map signedAmount).sum :=
  ⟨by decide, by decide,
    c1_wallet_balance_invariant dbEmpty 1 ("personal") date0
      [(creditInput 500, date0), (debitInput 200, date1)]
      (by decide) (by decide)⟩

/-- C3: on a wallet with balance `B`, the ledger path
(`addWalletTransaction`) records `balanceAfter = B - A` for a debit of `A`
and writes `B - A` onto the wallet with no floor at zero, whereas the direct
path (`updateWalletBalance`) sets the balance to `max 0 (B - A)` for a
debit; for credits both paths produce `B + A`. -/
theorem c3_debit_clamp_asymmetry (s : DbState) (walletId : Nat)
    (w : DigitalWallet) (amount : Int) (now : JsDate)
    (hfind : s.wallets.find? (fun x => decide (x.id = walletId)) = some w) :
    (DatabaseStorage.addWalletTransaction s walletId (debitInput amount)
        now).2.balanceAfter = w.balance - amount ∧
    DatabaseStorage.getWalletBalance
        (DatabaseStorage.addWalletTransaction s walletId (debitInput amount)
          now).1 walletId = w.balance - amount ∧
    DatabaseStorage.getWalletBalance
        (DatabaseStorage.updateWalletBalance s walletId amount ("debit")
          now).1 walletId = max 0 (w.balance - amount) ∧
    (DatabaseStorage.addWalletTransaction s walletId (creditInput amount)
        now).2.balanceAfter = w.balance + amount ∧
    DatabaseStorage.getWalletBalance
        (DatabaseStorage.addWalletTransaction s walletId (creditInput amount)
          now).1 walletId = w.balance + amount ∧
    DatabaseStorage.getWalletBalance
        (DatabaseStorage.updateWalletBalance s walletId amount ("credit")
          now).1 walletId = w.balance + amount := by
  have hbalget : DatabaseStorage.getWalletBalance s walletId = w.balance := by
    unfold DatabaseStorage.getWalletBalance
    rw [hfind]
  refine ⟨?_, ?_, ?_, ?_, ?_, ?_⟩
  · unfold DatabaseStorage.addWalletTransaction
    simp [hbalget, debitInput]
  · unfold DatabaseStorage.addWalletTransaction
    unfold DatabaseStorage.getWalletBalance
    rw [hfind]
    simp only []
    rw [find?_wallets_update, hfind]
    simp [debitInput]
  · unfold DatabaseStorage.updateWalletBalance
    unfold DatabaseStorage.getWalletBalance
    rw [hfind]
    simp only []
    rw [find?_wallets_update, hfind]
    simp
  · unfold DatabaseStorage.addWalletTransaction
    simp [hbalget, creditInput]
  · unfold DatabaseStorage.addWalletTransaction
    unfold DatabaseStorage.getWalletBalance
    rw [hfind]
    simp only []
    rw [find?_wallets_update, hfind]
    simp [creditInput]
  · unfold DatabaseStorage.updateWalletBalance
    unfold DatabaseStorage.getWalletBalance
    rw [hfind]
    simp only []
    rw [find?_wallets_update, hfind]
    simp

/-- C3 witness: balance 1.00, debit 2.50 — the ledger path records and
stores −1.50 while the direct path floors at 0.00; credits agree at 3.50. -/
theorem c3_debit_clamp_asymmetry_witness :
    sWallet.wallets.find? (fun x => decide (x.id = 1)) = some walletA ∧
    ((DatabaseStorage.addWalletTransaction sWallet 1 (debitInput 250)
        date1).2.balanceAfter = walletA.balance - 250 ∧
    DatabaseStorage.getWalletBalance
        (DatabaseStorage.addWalletTransaction sWallet 1 (debitInput 250)
          date1).1 1 = walletA.balance - 250 ∧
    DatabaseStorage.getWalletBalance
        (DatabaseStorage.updateWalletBalance sWallet 1 250 ("debit")
          date1).1 1 = max 0 (walletA.balance - 250) ∧
    (DatabaseStorage.addWalletTransaction sWallet 1 (creditInput 250)
        date1).2.balanceAfter = walletA.balance + 250 ∧
    DatabaseStorage.getWalletBalance
        (DatabaseStorage.addWalletTransaction sWallet 1 (creditInput 250)
          date1).1 1 = walletA.balance + 250 ∧
    DatabaseStorage.getWalletBalance
        (DatabaseStorage.updateWalletBalance sWallet 1 250 ("credit")
          date1).1 1 = walletA.balance + 250) :=
  ⟨by decide,
    c3_debit_clamp_asymmetry sWallet 1 walletA 250 date1 (by decide)⟩

/-- C4: every `createWithdrawal` call returns a withdrawal with
`netAmount = amount - fee` and appends exactly one new ledger transaction —
a `'debit'` of the full pre-fee amount with status `'pending'` on the same
wallet. -/
theorem c4_withdrawal_net_amount (s : DbState) (walletId : Nat)
    (w : WithdrawalInput) (now : JsDate) :
    (DatabaseStorage.createWithdrawal s walletId w now).2.netAmount =
        w.amount - w.transactionFee.getD 0 ∧
    ∃ t,
      (DatabaseStorage.createWithdrawal s walletId w
          now).1.walletTransactions = s.walletTransactions ++ [t] ∧
      t.walletId = walletId ∧
      t.transactionType = "debit" ∧
      t.amount = w.amount ∧
      t.status = "pending" := by
  unfold DatabaseStorage.createWithdrawal DatabaseStorage.addWalletTransaction
  exact ⟨rfl, _, rfl, rfl, rfl, rfl, rfl⟩

/-- C5 counterexample: in `MemStorage`, two `createReferralCode` calls for
the same user (at consecutive clock ticks) return different codes, refuting
idempotence for that backend. -/
theorem c5_counterexample_mem_two_codes :
    (MemStorage.createReferralCode
        (MemStorage.createReferralCode memEmpty 1 date0).1 1 date1).2.code ≠
      (MemStorage.createReferralCode memEmpty 1 date0).2.code := by
  decide

/-- C5 (amended): in `DatabaseStorage`, `createReferralCode` is idempotent
per user — a second call (at any later clock reading) returns the same code
row and leaves the state unchanged. -/
theorem c5_db_referral_code_idempotent (s : DbState) (userId : Nat)
    (t1 t2 : JsDate) :
    DatabaseStorage.createReferralCode
        (DatabaseStorage.createReferralCode s userId t1).1 userId t2 =
      DatabaseStorage.createReferralCode s userId t1 := by
  unfold DatabaseStorage.createReferralCode
  cases hfind : s.referralCodes.find? (fun rc => decide (rc.userId = userId))
  case some existing => simp [hfind]
  case none =>
      simp only [hfind]
      rw [List.find?_append, hfind]
      simp [List.find?]

/-- C6 counterexample: in `DatabaseStorage`, updating usage on a day after
the stored `lastUsageReset` sets `dailyUsage` to the argument but leaves
`lastUsageReset` at the old day instead of the current one. -/
theorem c6_counterexample_db_reset_untouched :
    (date2.day ≠ userA.lastUsageReset.day ∨
      date2.month ≠ userA.lastUsageReset.month ∨
      date2.year ≠ userA.lastUsageReset.year) ∧
    DatabaseStorage.getUser (DatabaseStorage.updateUserUsage sUserDb 1 5) 1 =
      some { userA with dailyUsage := 5 } ∧
    ({ userA with dailyUsage := 5 } : User).lastUsageReset ≠ date2 := by
  decide

/-- C6 (amended): in `MemStorage`, `updateUserUsage` on a different calendar
day resets first and then applies the argument, so afterwards
`dailyUsage` equals the argument (not accumulated) and `lastUsageReset` is
the current clock; in `DatabaseStorage`, `dailyUsage` equals the argument
but `lastUsageReset` is left unchanged. -/
theorem c6_update_user_usage_day_boundary (s : MemState) (sdb : DbState)
    (userId usage : Nat) (now : JsDate) (user u : User)
    (hget : mapGet s.users userId = some user)
    (hday : now.day ≠ user.lastUsageReset.day ∨
      now.month ≠ user.lastUsageReset.month ∨
      now.year ≠ user.lastUsageReset.year)
    (hfindu : sdb.users.find? (fun x => decide (x.id = userId)) = some u) :
    (∃ s', MemStorage.updateUserUsage s userId usage now = Except.ok s' ∧
      mapGet s'.users userId =
        some { user with dailyUsage := usage, lastUsageReset := now }) ∧
    DatabaseStorage.getUser (DatabaseStorage.updateUserUsage sdb userId usage)
        userId = some { u with dailyUsage := usage } := by
  constructor
  · unfold MemStorage.updateUserUsage
    rw [hget]
    simp only [if_pos hday]
    exact ⟨_, rfl, mapGet_mapSet_self _ _ _⟩
  · unfold DatabaseStorage.updateUserUsage DatabaseStorage.getUser
    rw [find?_map_ite sdb.users (fun x => x.id = userId)
      (fun u => { u with dailyUsage := usage }) (fun _ ha => ha), hfindu]
    rfl

/-- C6 witness: the user `userA` (reset on day 9) updated with usage 5 on
day 10, in both backends. -/
theorem c6_update_user_usage_day_boundary_witness :
    mapGet sUserMem.users 1 = some userA ∧
    (date2.day ≠ userA.lastUsageReset.day ∨
      date2.month ≠ userA.lastUsageReset.month ∨
      date2.year ≠ userA.lastUsageReset.year) ∧
    sUserDb.users.find? (fun x => decide (x.id = 1)) = some userA ∧
    ((∃ s', MemStorage.updateUserUsage sUserMem 1 5 date2 = Except.ok s' ∧
        mapGet s'.users 1 =
          some { userA with dailyUsage := 5, lastUsageReset := date2 }) ∧
      DatabaseStorage.getUser
        (DatabaseStorage.updateUserUsage sUserDb 1 5) 1 =
        some { userA with dailyUsage := 5 }) :=
  ⟨by decide, by decide, by decide,
    c6_update_user_usage_day_boundary sUserMem sUserDb 1 5 date2 userA userA
      (by decide) (by decide) (by decide)⟩

/-- C7 counterexample: `MemStorage.updateUserUsage` and
`MemStorage.incrementDownloadCount` on a missing owner return normally with
the store unchanged — they do not fail with a `NotFoundError`. -/
theorem c7_counterexample_missing_owner_no_error :
    MemStorage.updateUserUsage memEmpty 42 5 date0 = Except.ok memEmpty ∧
    MemStorage.incrementDownloadCount memEmpty 7 date0 =
      Except.ok memEmpty :=
  ⟨rfl, rfl⟩

/-- C7 (amended): read lookups on absent entities return an absent value
without raising; mutating operations on a non-existent owner do **not**
raise a `NotFoundError` — `updateUserUsage` and `incrementDownloadCount`
return normally leaving the store unchanged, and `addWalletTransaction` on a
missing wallet treats the balance as `"0.00"`, leaves the wallet table
unchanged, and still appends a ledger row. -/
theorem c7_absent_entity_behaviour (s : MemState) (sdb : DbState)
    (userId purchaseId productId walletId usage : Nat) (now : JsDate)
    (tx : WalletTxInput)
    (hu : mapGet s.users userId = none)
    (hp : mapGet s.digitalProductPurchases purchaseId = none)
    (hgp : ∀ p ∈ s.digitalProductPurchases,
      ¬(p.2.userId = userId ∧ p.2.productId = productId))
    (hw : sdb.wallets.find? (fun w => decide (w.id = walletId)) = none) :
    MemStorage.getUser s userId = none ∧
    MemStorage.getPurchase s userId productId = none ∧
    MemStorage.updateUserUsage s userId usage now = Except.ok s ∧
    MemStorage.incrementDownloadCount s purchaseId now = Except.ok s ∧
    DatabaseStorage.getWalletBalance sdb walletId = 0 ∧
    (DatabaseStorage.addWalletTransaction sdb walletId tx now).1.wallets =
      sdb.wallets ∧
    ∃ t,
      (DatabaseStorage.addWalletTransaction sdb walletId tx
          now).1.walletTransactions = sdb.walletTransactions ++ [t] := by
  have hnotfound : ∀ w ∈ sdb.wallets, ¬ w.id = walletId := by
    intro w hwmem hwid
    have := List.find?_eq_none.mp hw w hwmem
    simp [hwid] at this
  refine ⟨hu, ?_, ?_, ?_, ?_, ?_, ?_⟩
  · unfold MemStorage.getPurchase
    rw [List.find?_eq_none]
    intro p hpmem
    simp only [List.mem_map] at hpmem
    obtain ⟨q, hq, rfl⟩ := hpmem
    simpa using hgp q hq
  · unfold MemStorage.updateUserUsage
    rw [hu]
  · unfold MemStorage.incrementDownloadCount
    rw [hp]
  · unfold DatabaseStorage.getWalletBalance
    rw [hw]
  · unfold DatabaseStorage.addWalletTransaction
    simp only []
    have hid : ∀ w ∈ sdb.wallets,
        (if w.id = walletId then
          { w with
            balance :=
              if tx.transactionType = "credit" then
                DatabaseStorage.getWalletBalance sdb walletId + tx.amount
              else DatabaseStorage.getWalletBalance sdb walletId - tx.amount
            lastTransactionAt := some now
            updatedAt := now }
        else w) = w := by
      intro w hwmem
      rw [if_neg (hnotfound w hwmem)]
    exact (List.map_congr_left hid).trans (List.map_id _)
  · unfold DatabaseStorage.addWalletTransaction
    exact ⟨_, rfl⟩

/-- C7 witness: the empty stores, user 42, purchase 7, product 3,
wallet 9. -/
theorem c7_absent_entity_behaviour_witness :
    mapGet memEmpty.users 42 = none ∧
    mapGet memEmpty.digitalProductPurchases 7 = none ∧
    (∀ p ∈ memEmpty.digitalProductPurchases,
      ¬(p.2.userId = 42 ∧ p.2.productId = 3)) ∧
    dbEmpty.wallets.find? (fun w => decide (w.id = 9)) = none ∧
    (MemStorage.getUser memEmpty 42 = none ∧
      MemStorage.getPurchase memEmpty 42 3 = none ∧
      MemStorage.updateUserUsage memEmpty 42 5 date0 = Except.ok memEmpty ∧
      MemStorage.incrementDownloadCount memEmpty 7 date0 =
        Except.ok memEmpty ∧
      DatabaseStorage.getWalletBalance dbEmpty 9 = 0 ∧
      (DatabaseStorage.addWalletTransaction dbEmpty 9 (creditInput 100)
          date0).1.wallets = dbEmpty.wallets ∧
      ∃ t,
        (DatabaseStorage.addWalletTransaction dbEmpty 9 (creditInput 100)
            date0).1.walletTransactions =
          dbEmpty.walletTransactions ++ [t]) :=
  ⟨by decide, by decide, by decide, by decide,
    c7_absent_entity_behaviour memEmpty dbEmpty 42 7 3 9 5 date0
      (creditInput 100) (by decide) (by decide) (by decide) (by decide)⟩

/-- C2 counterexample: starting from corresponding empty stores, the same
call sequence — `createReferralCode(1)` twice, one clock tick apart —
returns the same code first, then observably different results:
`MemStorage` mints a second, different code while `DatabaseStorage` returns
the first one again. -/
theorem c2_counterexample_backends_diverge :
    (MemStorage.createReferralCode memEmpty 1 date0).2.code =
      (DatabaseStorage.createReferralCode dbEmpty 1 date0).2.code ∧
    (MemStorage.createReferralCode
        (MemStorage.createReferralCode memEmpty 1 date0).1 1
        date1).2.code ≠
      (DatabaseStorage.createReferralCode
        (DatabaseStorage.createReferralCode dbEmpty 1 date0).1 1
        date1).2.code := by
  decide

/-- C2 (amended): the two backends are not observably equivalent on every
operation (`createReferralCode` diverges, see the counterexample; the wallet
operations exist only on `DatabaseStorage`); operations whose two bodies
implement the same logic, such as `updateReferralStatus`, do preserve
backend correspondence: agreeing referral tables still agree after the
call. -/
theorem c2_update_referral_status_backend_equiv (ms : MemState) (ds : DbState)
    (referralId : Nat) (status : String) (cd : Option JsDate)
    (ca : Option Int)
    (hagree : ReferralTablesAgree ms.referrals ds.referrals) :
    ReferralTablesAgree
      (MemStorage.updateReferralStatus ms referralId status cd ca).referrals
      (DatabaseStorage.updateReferralStatus ds referralId status cd
        ca).referrals := by
  obtain ⟨hvals, hkeys, hnodup⟩ := hagree
  have hdb :
      (DatabaseStorage.updateReferralStatus ds referralId status cd
        ca).referrals =
        ds.referrals.map
          (fun r =>
            if r.id = referralId then referralStatusUpdate status cd ca r
            else r) := rfl
  have hids :
      (ds.referrals.map
          (fun r =>
            if r.id = referralId then referralStatusUpdate status cd ca r
            else r)).map (fun r => r.id) =
        ds.referrals.map (fun r => r.id) := by
    rw [List.map_map]
    apply List.map_congr_left
    intro x _
    by_cases hxid : x.id = referralId
    · simp [Function.comp, hxid, referralStatusUpdate_id]
    · simp [Function.comp, hxid]
  cases hg : mapGet ms.referrals referralId with
  | none =>
      have hmem :
          MemStorage.updateReferralStatus ms referralId status cd ca = ms := by
        unfold MemStorage.updateReferralStatus
        rw [hg]
      have hfnone :
          ms.referrals.find? (fun p => decide (p.1 = referralId)) = none :=
        Option.map_eq_none.mp hg
      have hnomatch : ∀ r ∈ ds.referrals, ¬ r.id = referralId := by
        intro r hr hrid
        rw [← hvals] at hr
        obtain ⟨p, hp, rfl⟩ := List.mem_map.mp hr
        exact List.find?_eq_none.mp hfnone p hp
          (by simpa using (hkeys p hp).trans hrid)
      have hiddb :
          ds.referrals.map
            (fun r =>
              if r.id = referralId then referralStatusUpdate status cd ca r
              else r) = ds.referrals := by
        have hcongr :
            ds.referrals.map
              (fun r =>
                if r.id = referralId then referralStatusUpdate status cd ca r
                else r) = ds.referrals.map id :=
          List.map_congr_left
            (fun r (hr : r ∈ ds.referrals) => if_neg (hnomatch r hr))
        rw [hcongr, List.map_id]
      rw [hmem, hdb, hiddb]
      exact ⟨hvals, hkeys, hnodup⟩
  | some r =>
      have hmem :
          (MemStorage.updateReferralStatus ms referralId status cd
            ca).referrals =
            mapSet ms.referrals referralId
              (referralStatusUpdate status cd ca r) := by
        unfold MemStorage.updateReferralStatus
        rw [hg]
      obtain ⟨p, hpfind, hpr⟩ := Option.map_eq_some.mp hg
      have hpmem : p ∈ ms.referrals := List.mem_of_find?_eq_some hpfind
      have hpkey : p.1 = referralId := by
        have hps := List.find?_some hpfind
        simpa using hps
      have hrid : r.id = referralId := by
        rw [← hpr]
        exact (hkeys p hpmem).symm.trans hpkey
      have hany : ms.referrals.any (fun p => decide (p.1 = referralId)) =
          true :=
        List.any_eq_true.mpr ⟨p, hpmem, decide_eq_true hpkey⟩
      have hrmem : r ∈ ds.referrals := by
        rw [← hvals]
        exact List.mem_map.mpr ⟨p, hpmem, hpr⟩
      have huniq : ∀ x ∈ ds.referrals, x.id = referralId → x = r := by
        intro x hx hxid
        exact List.inj_on_of_nodup_map hnodup hx hrmem
          (hxid.trans hrid.symm)
      refine ⟨?_, ?_, ?_⟩
      · rw [hmem, hdb]
        rw [mapSet_values Referral.id ms.referrals referralId
          (referralStatusUpdate status cd ca r) hkeys hany, hvals]
        apply List.map_congr_left
        intro x hx
        by_cases hxid : x.id = referralId
        · rw [if_pos hxid, if_pos hxid, huniq x hx hxid]
        · rw [if_neg hxid, if_neg hxid]
      · rw [hmem]
        exact mapSet_keys Referral.id ms.referrals referralId
          (referralStatusUpdate status cd ca r) hkeys
          ((referralStatusUpdate_id status cd ca r).trans hrid)
      · rw [hdb, hids]
        exact hnodup

/-- C2 witness: corresponding one-referral stores, converting referral 1
with a 30.00 commission. -/
theorem c2_update_referral_status_backend_equiv_witness :
    ReferralTablesAgree sRefMem.referrals sRefDb.referrals ∧
    ReferralTablesAgree
      (MemStorage.updateReferralStatus sRefMem 1 ("converted") (some date1)
        (some 3000)).referrals
      (DatabaseStorage.updateReferralStatus sRefDb 1 ("converted") (some date1)
        (some 3000)).referrals :=
  ⟨⟨by decide, by decide, by decide⟩,
    c2_update_referral_status_backend_equiv sRefMem sRefDb 1 ("converted")
      (some date1) (some 3000) ⟨by decide, by decide, by decide⟩⟩

/-- C8: on a well-formed registry, a `join_community` for a username already
present closes exactly the prior connection's socket, and afterwards the
registry holds exactly one entry for that username — the new connection —
and is still well-formed. -/
theorem c8_single_connection_per_username
    (reg : List (String × ConnectedUser)) (username userType : String)
    (location : Option String) (ws : Nat) (old : ConnectedUser)
    (hwf : Chat.RegistryWF reg)
    (hold : mapGet reg username = some old) :
    (Chat.joinCommunity reg username userType location ws).2 = [old.ws] ∧
    ((Chat.joinCommunity reg username userType location ws).1.filter
        (fun e => decide (e.2.username = username))).length = 1 ∧
    mapGet (Chat.joinCommunity reg username userType location ws).1
        username =
      some
        { id := username
          username := username
          userType := userType
          location := location
          ws := ws } ∧
    Chat.RegistryWF
      (Chat.joinCommunity reg username userType location ws).1 := by
  obtain ⟨hkeys, hnodup⟩ := hwf
  obtain ⟨hclosed, hkeys', hnodup', hno, hmem⟩ :=
    joinEvict_spec reg username old hkeys hnodup hold
  have hanyf : ((Chat.joinEvict reg username).1.any
      (fun p => decide (p.1 = username))) = false := by
    rw [List.any_eq_false]
    intro p hp
    simp only [decide_eq_true_eq]
    intro hpk
    exact hno p hp ((hkeys' p hp).symm.trans hpk)
  have happend :
      Chat.joinCommunity reg username userType location ws =
        ((Chat.joinEvict reg username).1 ++
          [(username,
            { id := username
              username := username
              userType := userType
              location := location
              ws := ws })],
         (Chat.joinEvict reg username).2) := by
    simp [Chat.joinCommunity, mapSet, hanyf]
  have hkeyne : ∀ p ∈ (Chat.joinEvict reg username).1, ¬ p.1 = username :=
    fun p hp hpk => hno p hp ((hkeys' p hp).symm.trans hpk)
  refine ⟨?_, ?_, ?_, ?_, ?_⟩
  · rw [happend]
    exact hclosed
  · rw [happend]
    simp only [List.filter_append]
    have hleft : ((Chat.joinEvict reg username).1.filter
        (fun e => decide (e.2.username = username))) = [] := by
      rw [List.filter_eq_nil_iff]
      intro e he
      simpa using hno e he
    rw [hleft]
    simp
  · rw [happend]
    unfold mapGet
    rw [List.find?_append]
    have hnone : ((Chat.joinEvict reg username).1.find?
        (fun p => decide (p.1 = username))) = none := by
      rw [List.find?_eq_none]
      intro p hp
      simpa using hkeyne p hp
    simp [hnone, List.find?]
  · rw [happend]
    intro p hp
    rcases List.mem_append.mp hp with hl | hr
    · exact hkeys' p hl
    · rcases List.mem_singleton.mp hr with rfl
      rfl
  · rw [happend]
    rw [List.map_append, List.nodup_append]
    refine ⟨hnodup', by simp, ?_⟩
    intro k hk hk'
    simp only [List.map_cons, List.map_nil, List.mem_singleton] at hk'
    obtain ⟨p, hp, rfl⟩ := List.mem_map.mp hk
    exact hkeyne p hp hk'

/-- C8 witness: Alice rejoining over a registry holding Alice (socket 1) and
Bob; the old socket 1 is closed and exactly one Alice entry (socket 3)
remains. -/
theorem c8_single_connection_per_username_witness :
    Chat.RegistryWF regAliceBob ∧
    mapGet regAliceBob ("Alice") = some connAlice ∧
    ((Chat.joinCommunity regAliceBob ("Alice") ("entrepreneur") none 3).2 =
        [connAlice.ws] ∧
      ((Chat.joinCommunity regAliceBob ("Alice") ("entrepreneur") none
            3).1.filter
          (fun e => decide (e.2.username = "Alice"))).length = 1 ∧
      mapGet (Chat.joinCommunity regAliceBob ("Alice") ("entrepreneur") none
          3).1 ("Alice") =
        some
          { id := "Alice"
            username := "Alice"
            userType := "entrepreneur"
            location := none
            ws := 3 } ∧
      Chat.RegistryWF
        (Chat.joinCommunity regAliceBob ("Alice") ("entrepreneur") none 3).1) :=
  ⟨⟨by decide, by decide⟩, by decide,
    c8_single_connection_per_username regAliceBob ("Alice") ("entrepreneur")
      none 3 connAlice ⟨by decide, by decide⟩ (by decide)⟩

/-- C9: a `community_message` from a registered connection is delivered to
every currently connected participant whose socket is open — the sender
included, with no exclusion — carrying a server-assigned `id` and
`timestamp`; a frame from a connection that never joined (or whose
registered id is absent) sends nothing. -/
theorem c9_community_message_broadcast
    (reg : List (String × ConnectedUser)) (isOpen : Nat → Bool)
    (uid : String) (sender : ConnectedUser) (text : String) (now : Nat)
    (hsender : mapGet reg uid = some sender) :
    Chat.handleCommunityMessage reg isOpen (some uid) text now =
      (reg.filter (fun e => isOpen e.2.ws)).map
        (fun e =>
          (e.2.ws,
            { type := "community_message"
              id := toString now
              username := sender.username
              message := text
              timestamp := now
              userType := sender.userType })) ∧
    (isOpen sender.ws = true →
      ∃ m,
        (sender.ws, m) ∈
          Chat.handleCommunityMessage reg isOpen (some uid) text now ∧
        m.id = toString now ∧ m.timestamp = now) ∧
    (∀ t n, Chat.handleCommunityMessage reg isOpen none t n = []) ∧
    (∀ u', mapGet reg u' = none →
      Chat.handleCommunityMessage reg isOpen (some u') text now = []) := by
  have hmain :
      Chat.handleCommunityMessage reg isOpen (some uid) text now =
        (reg.filter (fun e => isOpen e.2.ws)).map
          (fun e =>
            (e.2.ws,
              { type := "community_message"
                id := toString now
                username := sender.username
                message := text
                timestamp := now
                userType := sender.userType })) := by
    simp only [Chat.handleCommunityMessage, hsender, Chat.broadcastTargets]
    simp [List.map_map, Function.comp]
  refine ⟨hmain, ?_, fun t n => rfl, ?_⟩
  · intro hopen
    obtain ⟨p, hpfind, hpv⟩ := Option.map_eq_some.mp hsender
    have hpmem : p ∈ reg := List.mem_of_find?_eq_some hpfind
    refine ⟨{ type := "community_message"
              id := toString now
              username := sender.username
              message := text
              timestamp := now
              userType := sender.userType }, ?_, rfl, rfl⟩
    rw [hmain]
    refine List.mem_map.mpr ⟨p, ?_, by rw [hpv]⟩
    exact List.mem_filter.mpr ⟨hpmem, by rw [hpv]; exact hopen⟩
  · intro u' hu'
    simp [Chat.handleCommunityMessage, hu']

/-- C9 witness: Alice messages a registry holding Alice (socket 1) and Bob
(socket 2), both sockets open — both receive the stamped frame, Alice
included. -/
theorem c9_community_message_broadcast_witness :
    mapGet regAliceBob ("Alice") = some connAlice ∧
    (Chat.handleCommunityMessage regAliceBob (fun _ => true) (some ("Alice"))
        ("hi") 7 =
      (regAliceBob.filter (fun e => (fun _ => true) e.2.ws)).map
        (fun e =>
          (e.2.ws,
            { type := "community_message"
              id := toString 7
              username := connAlice.username
              message := "hi"
              timestamp := 7
              userType := connAlice.userType })) ∧
    ((fun _ => true) connAlice.ws = true →
      ∃ m,
        (connAlice.ws, m) ∈
          Chat.handleCommunityMessage regAliceBob (fun _ => true)
            (some ("Alice")) ("hi") 7 ∧
        m.id = toString 7 ∧ m.timestamp = 7) ∧
    (∀ t n,
      Chat.handleCommunityMessage regAliceBob (fun _ => true) none t n =
        []) ∧
    (∀ u', mapGet regAliceBob u' = none →
      Chat.handleCommunityMessage regAliceBob (fun _ => true) (some u')
        ("hi") 7 = [])) :=
  ⟨by decide,
    c9_community_message_broadcast regAliceBob (fun _ => true) ("Alice")
      connAlice ("hi") 7 (by decide)⟩

/-- C10: in both backends `updateReferralStatus` overwrites `status`
unconditionally (no transition validation), leaves `conversionDate`
unchanged when the argument is absent, leaves `commissionAmount` unchanged
when the argument is absent **or zero**, changes no other field of the row,
and touches no other row. -/
theorem c10_update_referral_status_frame
    (ms : MemState) (ds : DbState) (referralId : Nat) (status : String)
    (cd : Option JsDate) (ca : Option Int) (r : Referral)
    (hmemget : mapGet ms.referrals referralId = some r) :
    mapGet (MemStorage.updateReferralStatus ms referralId status cd
        ca).referrals referralId =
      some (referralStatusUpdate status cd ca r) ∧
    (∀ k, k ≠ referralId →
      mapGet (MemStorage.updateReferralStatus ms referralId status cd
          ca).referrals k = mapGet ms.referrals k) ∧
    (∀ x ∈ ds.referrals, x.id = referralId →
      referralStatusUpdate status cd ca x ∈
        (DatabaseStorage.updateReferralStatus ds referralId status cd
          ca).referrals) ∧
    (∀ x ∈ ds.referrals, x.id ≠ referralId →
      x ∈ (DatabaseStorage.updateReferralStatus ds referralId status cd
        ca).referrals) ∧
    (∀ x : Referral,
      (referralStatusUpdate status cd ca x).status = status ∧
      (referralStatusUpdate status cd ca x).conversionDate =
        (match cd with
         | some d => some d
         | none => x.conversionDate) ∧
      (referralStatusUpdate status cd ca x).commissionAmount =
        (match ca with
         | some c => if c ≠ 0 then some c else x.commissionAmount
         | none => x.commissionAmount) ∧
      (referralStatusUpdate status cd ca x).id = x.id ∧
      (referralStatusUpdate status cd ca x).referrerId = x.referrerId ∧
      (referralStatusUpdate status cd ca x).refereeId = x.refereeId ∧
      (referralStatusUpdate status cd ca x).referralCode = x.referralCode ∧
      (referralStatusUpdate status cd ca x).currency = x.currency ∧
      (referralStatusUpdate status cd ca x).createdAt = x.createdAt) := by
  have hmem :
      (MemStorage.updateReferralStatus ms referralId status cd
        ca).referrals =
        mapSet ms.referrals referralId
          (referralStatusUpdate status cd ca r) := by
    unfold MemStorage.updateReferralStatus
    rw [hmemget]
  refine ⟨?_, ?_, ?_, ?_, referralStatusUpdate_fields status cd ca⟩
  · rw [hmem]
    exact mapGet_mapSet_self _ _ _
  · intro k hk
    rw [hmem]
    exact mapGet_mapSet_ne _ _ _ _ hk
  · intro x hx hxid
    exact List.mem_map.mpr ⟨x, hx, by rw [if_pos hxid]⟩
  · intro x hx hxid
    exact List.mem_map.mpr ⟨x, hx, by rw [if_neg hxid]⟩

/-- C10 witness: converting referral 1 with status `"paid"`, no conversion
date, and a **zero** commission — the zero is skipped, nothing else
changes. -/
theorem c10_update_referral_status_frame_witness :
    mapGet sRefMem.referrals 1 = some refA ∧
    mapGet (MemStorage.updateReferralStatus sRefMem 1 ("paid") none
        (some 0)).referrals 1 =
      some (referralStatusUpdate ("paid") none (some 0) refA) ∧
    (∀ k, k ≠ 1 →
      mapGet (MemStorage.updateReferralStatus sRefMem 1 ("paid") none
          (some 0)).referrals k = mapGet sRefMem.referrals k) ∧
    (∀ x ∈ sRefDb.referrals, x.id = 1 →
      referralStatusUpdate ("paid") none (some 0) x ∈
        (DatabaseStorage.updateReferralStatus sRefDb 1 ("paid") none
          (some 0)).referrals) ∧
    (∀ x ∈ sRefDb.referrals, x.id ≠ 1 →
      x ∈ (DatabaseStorage.updateReferralStatus sRefDb 1 ("paid") none
        (some 0)).referrals) ∧
    (∀ x : Referral,
      (referralStatusUpdate ("paid") none (some 0) x).status = "paid" ∧
      (referralStatusUpdate ("paid") none (some 0) x).conversionDate =
        x.conversionDate ∧
      (referralStatusUpdate ("paid") none (some 0) x).commissionAmount =
        (if (0 : Int) ≠ 0 then some 0 else x.commissionAmount) ∧
      (referralStatusUpdate ("paid") none (some 0) x).id = x.id ∧
      (referralStatusUpdate ("paid") none (some 0) x).referrerId =
        x.referrerId ∧
      (referralStatusUpdate ("paid") none (some 0) x).refereeId =
        x.refereeId ∧
      (referralStatusUpdate ("paid") none (some 0) x).referralCode =
        x.referralCode ∧
      (referralStatusUpdate ("paid") none (some 0) x).currency = x.currency ∧
      (referralStatusUpdate ("paid") none (some 0) x).createdAt =
        x.createdAt) :=
  ⟨by decide,
    c10_update_referral_status_frame sRefMem sRefDb 1 ("paid") none (some 0)
      refA (by decide)⟩

